import Mathlib

/-!
Verification of the hls_downloader repository (Go) via a shallow embedding.

Strings are modelled as `List Char` (`Str`).  Go standard-library helpers
(`path.Base`, `path.Ext`, `strings.TrimSuffix`, `net/url` parsing and
reference resolution, `strconv.Atoi`) are embedded by their documented
behaviour on the inputs this program feeds them; every repository function
is translated clause-by-clause from its Go source:

  * `internal/parser/m3u8_parser.go`: `Parse`, `extractMediaSequence`,
    `extractURLsFromContent`, `parseRelativeURL`, `ExtractSegmentID`,
    `extractSegmentNumber`, `generateSegmentID`
  * `internal/downloader/downloader.go`: `filterNewSegments`,
    `processSegmentURL`, `Config`, `New`
  * `internal/storage` (file manager): `ConcurrentDownload` (as a labelled
    transition system), `downloadFileWithRetry`, `downloadSingleFile`
    (over an explicit world of HTTP/filesystem outcomes), `DeriveOutputDir`
-/

namespace HLS

/-- Character lists stand in for Go strings (byte strings of the program
are ASCII at every point the claims touch). -/
abbrev Str := List Char

/-- Convert a Lean string literal to the `Str` representation. -/
def str (s : String) : Str := s.data

/-- Whether `s` begins with the sub-list. -/
def strStartsWith : Str → Str → Bool
  | _, [] => true
  | [], _ :: _ => false
  | c :: cs, d :: ds => c = d && strStartsWith cs ds

/-- Go `strings.HasSuffix`. -/
def hasSuffixStr (s suf : Str) : Bool := strStartsWith s.reverse suf.reverse

/-- Go `strings.TrimSuffix`. -/
def trimSuffix (s suf : Str) : Str :=
  if hasSuffixStr s suf then s.take (s.length - suf.length) else s

/-- Go `strings.Contains`. -/
def containsStr : Str → Str → Bool
  | [], sub => sub.isEmpty
  | c :: rest, sub => strStartsWith (c :: rest) sub || containsStr rest sub

/-- Split at the first occurrence of `sep`: returns the part before it and,
when `sep` occurs, the part after it. -/
def breakAt (sep : Char) : Str → Str × Option Str
  | [] => ([], none)
  | c :: rest =>
    if c = sep then ([], some rest)
    else
      let r := breakAt sep rest
      (c :: r.1, r.2)

/-- Go `strings.Split` on a one-character separator. -/
def splitOnChar (sep : Char) : Str → List Str
  | [] => [[]]
  | c :: rest =>
    match splitOnChar sep rest with
    | [] => [[]]
    | h :: t => if c = sep then [] :: h :: t else (c :: h) :: t

/-- Go `strings.Join` with a one-character separator. -/
def joinWith (sep : Char) : List Str → Str
  | [] => []
  | [x] => x
  | x :: y :: t => x ++ sep :: joinWith sep (y :: t)

/-- Go `unicode.IsSpace` restricted to the code points it recognises below
0x2000 (space, TAB, LF, VT, FF, CR, NEL, NBSP). -/
def goIsSpace (c : Char) : Bool :=
  c.toNat = 32 || c.toNat = 9 || c.toNat = 10 || c.toNat = 11 ||
  c.toNat = 12 || c.toNat = 13 || c.toNat = 133 || c.toNat = 160

/-- Go `strings.TrimSpace`. -/
def trimSpace (s : Str) : Str :=
  ((s.dropWhile goIsSpace).reverse.dropWhile goIsSpace).reverse

/-- ASCII decimal digit (Go regexp `\d`). -/
def isDigitCh (c : Char) : Bool := 48 ≤ c.toNat && c.toNat ≤ 57

/-- Numeric value of an ASCII digit run. -/
def digitsToNat (s : Str) : Nat := s.foldl (fun acc c => acc * 10 + (c.toNat - 48)) 0

/-- Go `strconv.Atoi` succeeds on a digit-only string iff it is nonempty and
its value fits a signed 64-bit int. -/
def atoiOk (s : Str) : Bool := !s.isEmpty && digitsToNat s < 2 ^ 63

/-- ASCII digit character for a value below 10. -/
def digitChar (n : Nat) : Char := Char.ofNat (48 + n)

/-- Decimal rendering of a natural number (Go `fmt.Sprintf` verb `%d`),
fuel-indexed so that it is structurally recursive; the fuel `n + 1` always
suffices because the argument shrinks by a factor of 10 per step. -/
def natToStrCore : Nat → Nat → Str → Str
  | 0, _, acc => acc
  | fuel + 1, n, acc =>
    if n < 10 then digitChar n :: acc
    else natToStrCore fuel (n / 10) (digitChar (n % 10) :: acc)

/-- Decimal rendering of a natural number. -/
def natToStr (n : Nat) : Str := natToStrCore (n + 1) n []

/-- Decimal rendering of a Go int (`%d`). -/
def intToStr (i : Int) : Str :=
  if i < 0 then '-' :: natToStr i.natAbs else natToStr i.toNat

/-- Maximal trailing digit run of a string: what the Go regexp `(\d+)$`
captures (empty when the string does not end in a digit). -/
def trailingDigits (s : Str) : Str := (s.reverse.takeWhile isDigitCh).reverse

/-! ## Go `net/url` model

The components of `url.URL` this program reads: `Scheme`, `Host`, `Path`,
`RawQuery`.  Fragments are split off and discarded (never read here);
userinfo and opaque URIs do not occur in the program's inputs. -/

structure GoURL where
  scheme : Str
  host : Str
  path : Str
  query : Str
deriving DecidableEq, Repr

/-- A string containing an ASCII control character makes Go `url.Parse`
fail (`invalid control character in URL`). -/
def hasCtl (s : Str) : Bool := s.any (fun c => c.toNat < 32 || c.toNat = 127)

/-- Valid Go URL scheme: a letter followed by letters, digits, `+`, `-`, `.`. -/
def isSchemeTail (c : Char) : Bool :=
  (65 ≤ c.toNat && c.toNat ≤ 90) || (97 ≤ c.toNat && c.toNat ≤ 122) ||
  (48 ≤ c.toNat && c.toNat ≤ 57) || c = '+' || c = '-' || c = '.'

/-- Whole-string scheme validity check used by Go `getScheme`. -/
def isValidScheme : Str → Bool
  | [] => false
  | c :: rest =>
    ((65 ≤ c.toNat && c.toNat ≤ 90) || (97 ≤ c.toNat && c.toNat ≤ 122)) &&
    rest.all isSchemeTail

/-- Split `//host/path...` (already past the scheme) into host and path. -/
def splitHostPath (s : Str) : Str × Str :=
  (s.takeWhile (fun c => c ≠ '/'), s.dropWhile (fun c => c ≠ '/'))

/-- Go `url.Parse` restricted to the URL shapes this program feeds it:
hierarchical URLs `scheme://host/path?query#frag`, protocol-relative
`//host/path`, and relative references `path?query`. -/
def parseURL (s : Str) : Option GoURL :=
  if hasCtl s then none
  else
    let beforeFrag := (breakAt '#' s).1
    let bq := (breakAt '?' beforeFrag).1
    let query := ((breakAt '?' beforeFrag).2).getD []
    let mkNoScheme : Str → Option GoURL := fun p =>
      if strStartsWith p (str "//") then
        let hp := splitHostPath (p.drop 2)
        some ⟨[], hp.1, hp.2, query⟩
      else some ⟨[], [], p, query⟩
    match breakAt ':' bq with
    | (pre, some rest) =>
      if pre = [] then none
      else if isValidScheme pre then
        if strStartsWith rest (str "//") then
          let hp := splitHostPath (rest.drop 2)
          some ⟨pre, hp.1, hp.2, query⟩
        else some ⟨pre, [], rest, query⟩
      else mkNoScheme bq
    | (_, none) => mkNoScheme bq

/-- Go `path.Base`. -/
def pathBase (p : Str) : Str :=
  if p = [] then ['.']
  else
    let p1 := (p.reverse.dropWhile (fun c => c = '/')).reverse
    if p1 = [] then ['/']
    else (p1.reverse.takeWhile (fun c => c ≠ '/')).reverse

/-- Go `path.Ext`: the suffix of the final path element from its last dot. -/
def pathExt (p : Str) : Str :=
  let seg := p.reverse.takeWhile (fun c => c ≠ '/')
  match breakAt '.' seg with
  | (pre, some _) => '.' :: pre.reverse
  | (_, none) => []

/-! ## `internal/parser/m3u8_parser.go` -/

/-- Result structure of the parser (`Playlist`). -/
structure Playlist where
  URLs : List Str
  IsMaster : Bool
  MediaSequence : Int
deriving DecidableEq, Repr

inductive ParseErr
  | unrecognized
  | badBase
  | scanFailed
deriving DecidableEq, Repr

/-- The literal tag of the media-sequence regexp
`#EXT-X-MEDIA-SEQUENCE:(\d+)`. -/
def mediaSeqTag : Str := str "#EXT-X-MEDIA-SEQUENCE:"

/-- Digit run of the first (leftmost) match of the media-sequence regexp. -/
def findTagDigits : Str → Option Str
  | [] => none
  | c :: rest =>
    if strStartsWith (c :: rest) mediaSeqTag &&
        !((c :: rest).drop mediaSeqTag.length |>.takeWhile isDigitCh).isEmpty then
      some ((c :: rest).drop mediaSeqTag.length |>.takeWhile isDigitCh)
    else findTagDigits rest

/-- Model of `extractMediaSequence`: first regexp match converted by `Atoi`,
defaulting to 0 on absence or conversion failure. -/
def extractMediaSequence (content : Str) : Int :=
  match findTagDigits content with
  | some ds => if atoiOk ds then (digitsToNat ds : Int) else 0
  | none => 0

/-- The `base[:i+1]` slice (up to and including the last `/`) used by
Go `net/url.resolvePath`; empty when there is no slash. -/
def upToLastSlash (base : Str) : Str :=
  (base.reverse.dropWhile (fun c => c ≠ '/')).reverse

/-- Drop a single leading slash (Go `strings.TrimPrefix full "/"`). -/
def dropOneSlash : Str → Str
  | '/' :: r => r
  | s => s

/-- Go `net/url.resolvePath`: RFC 3986 path merge followed by
dot-segment removal. -/
def resolvePath (base ref : Str) : Str :=
  let full :=
    if ref = [] then base
    else if ref.head? ≠ some '/' then upToLastSlash base ++ ref
    else ref
  if full = [] then []
  else
    let src := splitOnChar '/' full
    let dst := src.foldl
      (fun acc e =>
        if e = ['.'] then acc
        else if e = ['.', '.'] then acc.dropLast
        else acc ++ [e]) []
    let dst :=
      match src.getLast? with
      | some e => if e = ['.'] ∨ e = ['.', '.'] then dst ++ [[]] else dst
      | none => dst
    '/' :: dropOneSlash (joinWith '/' dst)

/-- Go `URL.ResolveReference` on the modelled components (no userinfo,
no opaque part, fragments discarded). -/
def resolveReference (u ref : GoURL) : GoURL :=
  if ref.scheme ≠ [] ∨ ref.host ≠ [] then
    { scheme := if ref.scheme = [] then u.scheme else ref.scheme,
      host := ref.host, path := resolvePath ref.path [],
      query := ref.query }
  else
    { scheme := if ref.scheme = [] then u.scheme else ref.scheme,
      host := u.host, path := resolvePath u.path ref.path,
      query := if ref.path = [] ∧ ref.query = [] then u.query
        else ref.query }

/-- Go `URL.String` for the hierarchical URLs this program produces. -/
def urlToString (u : GoURL) : Str :=
  (if u.scheme = [] then [] else u.scheme ++ [':'])
  ++ (if u.host = [] then [] else '/' :: '/' :: u.host)
  ++ u.path
  ++ (if u.query = [] then [] else '?' :: u.query)

/-- Model of `parseRelativeURL`: RFC 3986 resolution against the base, then
query-string inheritance from the base when the result has none. -/
def parseRelativeURL (line : Str) (base : GoURL) : Option Str :=
  match parseURL line with
  | none => none
  | some u =>
    if (resolveReference base u).query = [] ∧ base.query ≠ [] then
      some (urlToString { resolveReference base u with query := base.query })
    else some (urlToString (resolveReference base u))

/-- Default maximum token size of `bufio.Scanner`
(`bufio.MaxScanTokenSize` = 64 KiB). -/
def maxScanTokenSize : Nat := 65536

/-- Whether `bufio.Scanner` with `ScanLines` gets through the whole
document without `ErrTooLong`: a line (maximal newline-free run, `\r`
included — it is stripped only after the token is extracted) of
`maxScanTokenSize` or more bytes overflows the scanner's buffer before a
newline is found, so every line must be shorter than the limit. -/
def scanLinesOk (content : Str) : Bool :=
  (splitOnChar '\n' content).all (fun l => l.length < maxScanTokenSize)

/-- The per-line work of `extractURLsFromContent`'s scan loop: trims,
skips comments and blanks, resolves, and skips lines whose resolution
fails. -/
def scanURLs (content : Str) (base : GoURL) : List Str :=
  (splitOnChar '\n' content).foldr
    (fun rawLine acc =>
      let line := trimSpace rawLine
      if strStartsWith line (str "#") ∨ line = [] then acc
      else
        match parseRelativeURL line base with
        | none => acc
        | some u => u :: acc) []

/-- Model of `extractURLsFromContent`: the scan loop, then the
`scanner.Err()` check — when any line overflows the 64 KiB token limit
the collected URLs are discarded and the scan error is returned
(`none`). -/
def extractURLsFromContent (content : Str) (base : GoURL) :
    Option (List Str) :=
  if scanLinesOk content then some (scanURLs content base) else none

/-- Model of `Parse`: classification by markers, media-sequence
extraction, base parse, URL extraction (whose scan error is
propagated). -/
def Parse (content baseURL : Str) : Except ParseErr Playlist :=
  if !(containsStr content (str "#EXT-X-STREAM-INF")) &&
      !(containsStr content (str "#EXTINF")) then .error .unrecognized
  else
    match parseURL baseURL with
    | none => .error .badBase
    | some base =>
      match extractURLsFromContent content base with
      | none => .error .scanFailed
      | some urls =>
        .ok { URLs := urls,
              IsMaster :=
                if containsStr content (str "#EXT-X-STREAM-INF") &&
                    containsStr content (str "#EXTINF") then false
                else containsStr content (str "#EXT-X-STREAM-INF"),
              MediaSequence := extractMediaSequence content }

/-- Model of `extractSegmentNumber`: empty after `TrimSpace` yields no match,
otherwise the regexp `(\d+)$` capture. -/
def extractSegmentNumber (name : Str) : Str :=
  if trimSpace name = [] then []
  else trailingDigits name

/-- Model of `generateSegmentID`: the trailing digit run when `Atoi` accepts it,
otherwise `fmt.Sprintf` of mediaSeq and index joined by `_`. -/
def generateSegmentID (baseNameNoExt : Str) (mediaSeq index : Int) : Str :=
  if extractSegmentNumber baseNameNoExt ≠ [] ∧
      atoiOk (extractSegmentNumber baseNameNoExt) = true then
    extractSegmentNumber baseNameNoExt
  else intToStr mediaSeq ++ '_' :: intToStr index

/-- Model of `ExtractSegmentID`: `none` models the error return (URL parse failure
or invalid basename). -/
def ExtractSegmentID (urlStr : Str) (mediaSeq index : Int) : Option Str :=
  match parseURL urlStr with
  | none => none
  | some u =>
    if pathBase u.path = [] ∨ pathBase u.path = ['.'] ∨
        pathBase u.path = ['/'] then none
    else
      some (generateSegmentID
        (trimSuffix (pathBase u.path) (pathExt (pathBase u.path)))
        mediaSeq index)

/-! ## `internal/downloader/downloader.go` -/

/-- Go `time.Duration` values are nanosecond counts; `time.Second`. -/
def goSecond : Int := 1000000000

/-- The `Config` structure (all four fields fixed at construction). -/
structure Config where
  MaxConcurrentDownloads : Int
  DownloadInterval : Int
  MaxRetryAttempts : Int
  RetryDelayBase : Int
deriving DecidableEq, Repr

/-- The configuration built by `New` (the only constructor in the code). -/
def newConfig : Config :=
  { MaxConcurrentDownloads := 8
    DownloadInterval := 5 * goSecond
    MaxRetryAttempts := 3
    RetryDelayBase := goSecond }

/-- Skip reasons of `processSegmentURL` (the two `return "", true` exits). -/
inductive SegSkip
  | invalidURL
  | invalidName
deriving DecidableEq, Repr

/-- Model of `processSegmentURL`: extraction error ⇒ invalid-URL skip; empty
identity ⇒ invalid-name skip; otherwise the identity. -/
def processSegmentURL (urlStr : Str) (mediaSeq index : Int) :
    Except SegSkip Str :=
  match ExtractSegmentID urlStr mediaSeq index with
  | none => .error .invalidURL
  | some segmentID =>
    if segmentID = [] then .error .invalidName else .ok segmentID

/-- The identity `filterNewSegments` works with at one entry: `none` when
the entry is skipped. -/
def procID (urlStr : Str) (mediaSeq index : Int) : Option Str :=
  match processSegmentURL urlStr mediaSeq index with
  | .error _ => none
  | .ok segmentID => some segmentID

/-- The `for index, urlStr := range tsURLs` loop of `filterNewSegments`
over the ledger (`downloaded` map modelled as a list of marked
identities).  Returns the selected `(index, url)` pairs in order and the
final ledger; the Go function's return value is the `map Prod.snd` of the
first component. -/
def filterLoop (seq : Int) : List Str → Nat → List Str →
    List (Nat × Str) × List Str
  | [], _, d => ([], d)
  | url :: rest, i, d =>
    match procID url seq (Int.ofNat i) with
    | none => filterLoop seq rest (i + 1) d
    | some segmentID =>
      if segmentID ∈ d then filterLoop seq rest (i + 1) d
      else
        ((i, url) :: (filterLoop seq rest (i + 1) (segmentID :: d)).1,
          (filterLoop seq rest (i + 1) (segmentID :: d)).2)

/-- Model of `filterNewSegments`: early return on an empty slice, otherwise the
loop.  Result: the new URLs and the updated `downloaded` ledger. -/
def filterNewSegments (downloaded : List Str) (tsURLs : List Str)
    (mediaSeq : Int) : List Str × List Str :=
  if tsURLs = [] then ([], downloaded)
  else
    ((filterLoop mediaSeq tsURLs 0 downloaded).1.map Prod.snd,
      (filterLoop mediaSeq tsURLs 0 downloaded).2)

/-! ## `internal/storage` file manager -/

/-- Externally observable actions of `downloadSingleFile`, in program
order. -/
inductive FMEvent
  | httpGet (url : Str)
  | statFile (p : Str)
  | createFile (p : Str)
  | copyBody (p : Str)
deriving DecidableEq, Repr

/-- Outcomes the environment would give one `downloadSingleFile` call:
the HTTP GET result (`none` = transport error, `some` = status code),
whether `os.Stat` finds the destination, and whether create/copy
succeed. -/
structure FMWorld where
  getStatus : Option Int
  fileExists : Bool
  createOk : Bool
  copyOk : Bool
deriving DecidableEq, Repr

/-- Model of `downloadSingleFile`: GET first; non-200 fails; the existence check
runs only after a successful GET and short-circuits the write. -/
def downloadSingleFile (w : FMWorld) (fileURL fpath : Str) :
    Bool × List FMEvent :=
  match w.getStatus with
  | none => (false, [.httpGet fileURL])
  | some code =>
    if code ≠ 200 then (false, [.httpGet fileURL])
    else if w.fileExists then (true, [.httpGet fileURL, .statFile fpath])
    else if !w.createOk then
      (false, [.httpGet fileURL, .statFile fpath, .createFile fpath])
    else
      (w.copyOk,
        [.httpGet fileURL, .statFile fpath, .createFile fpath,
          .copyBody fpath])

/-- The `for i := 0; i < maxRetries; i++` loop of `downloadFileWithRetry`,
with `rem = maxRetries - i` as the structural measure.  `outcome i` tells
whether attempt `i` succeeds.  Returns (success, attempts made, inserted
delays in order, each in nanoseconds). -/
def retryAux (outcome : Nat → Bool) (maxRetries : Nat) :
    Nat → Nat → Bool × Nat × List Int
  | _, 0 => (false, 0, [])
  | i, rem + 1 =>
    if outcome i then (true, 1, [])
    else
      ((retryAux outcome maxRetries (i + 1) rem).1,
        (retryAux outcome maxRetries (i + 1) rem).2.1 + 1,
        (if i < maxRetries - 1 then [(Int.ofNat i + 1) * goSecond] else [])
          ++ (retryAux outcome maxRetries (i + 1) rem).2.2)

/-- Model of `downloadFileWithRetry` observed as (success, attempts, delays). -/
def downloadFileWithRetry (outcome : Nat → Bool) (maxRetries : Nat) :
    Bool × Nat × List Int :=
  retryAux outcome maxRetries 0 maxRetries

/-- The character filter of `DeriveOutputDir` (`strings.Map` callback). -/
def safeChar (c : Char) : Char :=
  if (97 ≤ c.toNat ∧ c.toNat ≤ 122) ∨ (65 ≤ c.toNat ∧ c.toNat ≤ 90) ∨
      (48 ≤ c.toNat ∧ c.toNat ≤ 57) ∨ c = '-' ∨ c = '_' then c
  else '_'

/-- Go `strings.ReplaceAll host "." "_"`. -/
def replaceDotsHost (h : Str) : Str :=
  h.map (fun c => if c = '.' then '_' else c)

/-- Model of `DeriveOutputDir`: basename of the playlist path, or the
dot-to-underscore host when the basename is `""`, `"."` or `"/"`; both
suffixed `_hls_segments`. -/
def DeriveOutputDir (hlsURL : Str) : Option Str :=
  match parseURL hlsURL with
  | none => none
  | some u =>
    if pathBase u.path = [] ∨ pathBase u.path = ['.'] ∨
        pathBase u.path = ['/'] then
      some (replaceDotsHost u.host ++ str "_hls_segments")
    else
      some ((trimSuffix (pathBase u.path) (pathExt (pathBase u.path))).map
        safeChar ++ str "_hls_segments")

/-! ## `ConcurrentDownload` as a transition system

Go mechanism being modelled: the dispatch loop does `wg.Add(1)` and then
`sem <- struct{}{}` (a buffered channel of capacity `maxConcurrent`), so a
new worker goroutine starts only while fewer than `maxConcurrent` tokens
are held; each worker holds its token for its whole life (the in-flight
transfer runs inside it) and releases it when it finishes; the call
returns only after `wg.Wait()`, i.e. after every spawned worker is done.
State counts tasks not yet dispatched, workers currently holding a token,
and finished tasks. -/

structure DLState where
  pending : Nat
  holding : Nat
  done : Nat
  returned : Bool
deriving DecidableEq, Repr

/-- Initial state of `ConcurrentDownload` on a batch of `n` URLs. -/
def dlInit (n : Nat) : DLState := ⟨n, 0, 0, false⟩

/-- Atomic steps of `ConcurrentDownload` with concurrency limit `c`:
dispatch blocks until a semaphore slot is free (`holding < c`), a worker
finishing frees its slot, and the call returns only when everything is
dispatched and finished (`wg.Wait`). -/
inductive DLStep (c : Nat) : DLState → DLState → Prop
  | dispatch (p h d : Nat) : h < c →
      DLStep c ⟨p + 1, h, d, false⟩ ⟨p, h + 1, d, false⟩
  | finish (p h d : Nat) :
      DLStep c ⟨p, h + 1, d, false⟩ ⟨p, h, d + 1, false⟩
  | ret (d : Nat) :
      DLStep c ⟨0, 0, d, false⟩ ⟨0, 0, d, true⟩

/-- States reachable by `ConcurrentDownload` on `n` tasks with limit `c`. -/
inductive DLReach (c n : Nat) : DLState → Prop
  | init : DLReach c n (dlInit n)
  | step {s t : DLState} : DLReach c n s → DLStep c s t → DLReach c n t

/-! ## Helper lemmas -/

lemma mem_of_mem_takeWhile {α : Type} {p : α → Bool} {c : α} {l : List α}
    (h : c ∈ l.takeWhile p) : c ∈ l := by
  have h2 : c ∈ l.takeWhile p ++ l.dropWhile p := List.mem_append.2 (Or.inl h)
  rwa [List.takeWhile_append_dropWhile] at h2

lemma mem_dropWhile_of_neg {α : Type} {p : α → Bool} {c : α} {l : List α}
    (hc : c ∈ l) (hp : p c = false) : c ∈ l.dropWhile p := by
  have h2 := List.takeWhile_append_dropWhile (p := p) (l := l)
  rw [← h2] at hc
  rcases List.mem_append.1 hc with h | h
  · have := List.mem_takeWhile_imp h
    rw [hp] at this
    exact absurd this (by simp)
  · exact h

lemma trimSpace_ne_nil {s : Str} {c : Char} (hc : c ∈ s)
    (hp : goIsSpace c = false) : trimSpace s ≠ [] := by
  unfold trimSpace
  intro h
  have h1 : c ∈ s.dropWhile goIsSpace := mem_dropWhile_of_neg hc hp
  have h2 : c ∈ (s.dropWhile goIsSpace).reverse := List.mem_reverse.2 h1
  have h3 := mem_dropWhile_of_neg h2 hp
  rw [List.reverse_eq_nil_iff] at h
  rw [h] at h3
  exact absurd h3 (List.not_mem_nil c)

lemma trailingDigits_has_digit {s : Str} (h : trailingDigits s ≠ []) :
    ∃ c ∈ s, isDigitCh c = true := by
  unfold trailingDigits at h
  rw [ne_eq, List.reverse_eq_nil_iff] at h
  obtain ⟨c, hc⟩ := List.exists_mem_of_ne_nil _ h
  exact ⟨c, List.mem_reverse.1 (mem_of_mem_takeWhile hc),
    List.mem_takeWhile_imp hc⟩

lemma digit_not_space {c : Char} (h : isDigitCh c = true) :
    goIsSpace c = false := by
  unfold isDigitCh at h
  unfold goIsSpace
  simp only [Bool.and_eq_true, decide_eq_true_eq] at h
  simp only [Bool.or_eq_false_iff, decide_eq_false_iff_not]
  omega

lemma extractSegmentNumber_of_digits {s : Str}
    (h : trailingDigits s ≠ []) :
    extractSegmentNumber s = trailingDigits s := by
  obtain ⟨c, hc, hdig⟩ := trailingDigits_has_digit h
  unfold extractSegmentNumber
  rw [if_neg (trimSpace_ne_nil hc (digit_not_space hdig))]

lemma append_cons_ne_nil (a : Str) (c : Char) (b : Str) :
    a ++ c :: b ≠ [] := by
  cases a <;> simp

lemma generateSegmentID_ne_nil (s : Str) (seq idx : Int) :
    generateSegmentID s seq idx ≠ [] := by
  unfold generateSegmentID
  by_cases h : extractSegmentNumber s ≠ [] ∧
      atoiOk (extractSegmentNumber s) = true
  · rw [if_pos h]; exact h.1
  · rw [if_neg h]; exact append_cons_ne_nil _ _ _

lemma extractSegmentID_ne_nil {urlStr : Str} {seq idx : Int} {sid : Str}
    (h : ExtractSegmentID urlStr seq idx = some sid) : sid ≠ [] := by
  unfold ExtractSegmentID at h
  split at h
  · exact absurd h (by simp)
  · split at h
    · exact absurd h (by simp)
    · have h2 := Option.some.inj h
      rw [← h2]
      exact generateSegmentID_ne_nil _ _ _

/-! ## Claim C1 — segment identity from a trailing digit run

The claim says the numeric suffix is returned "as a canonical decimal
string with leading zeros normalized away".  The code validates the digit
run with `strconv.Atoi` but discards the parsed value and returns the
captured run itself, so leading zeros survive: `segment00042.ts` yields
`"00042"`, not `"42"`.  The fallback `"{sequence}_{index}"` part is as
claimed. -/

/-- Claim C1, counterexample: the URL `https://x/segment00042.ts` yields
the identity `"00042"`, not the claimed `"42"`. -/
theorem claim_C1_counterexample :
    ExtractSegmentID (str "https://x/segment00042.ts") 0 0
      = some (str "00042")
    ∧ str "00042" ≠ str "42" := by
  constructor
  · decide
  · decide

/-- Claim C1 (amended): when the extension-stripped basename of the URL
path ends in a digit run accepted by `Atoi`, `ExtractSegmentID` returns
that digit run verbatim (leading zeros preserved); when there is no
trailing digit run (and the basename is valid), it returns
`"{sequence}_{index}"`. -/
theorem claim_C1_amended :
    ∀ (urlStr : Str) (seq idx : Int) (u : GoURL) (ds : Str),
      parseURL urlStr = some u →
      trailingDigits (trimSuffix (pathBase u.path)
        (pathExt (pathBase u.path))) = ds →
      (ds ≠ [] → atoiOk ds = true →
        ExtractSegmentID urlStr seq idx = some ds)
      ∧ (ds = [] → pathBase u.path ≠ [] → pathBase u.path ≠ ['.'] →
          pathBase u.path ≠ ['/'] →
          ExtractSegmentID urlStr seq idx
            = some (intToStr seq ++ '_' :: intToStr idx)) := by
  intro urlStr seq idx u ds hp hds
  constructor
  · intro hne hat
    subst hds
    have h1 : pathBase u.path ≠ [] := by
      intro h; rw [h] at hne; exact hne (by decide)
    have h2 : pathBase u.path ≠ ['.'] := by
      intro h; rw [h] at hne; exact hne (by decide)
    have h3 : pathBase u.path ≠ ['/'] := by
      intro h; rw [h] at hne; exact hne (by decide)
    unfold ExtractSegmentID
    rw [hp]
    simp only [h1, h2, h3, or_self, if_false, false_or, or_false]
    unfold generateSegmentID
    rw [extractSegmentNumber_of_digits hne, if_pos ⟨hne, hat⟩]
  · intro hz h1 h2 h3
    unfold ExtractSegmentID
    rw [hp]
    simp only [h1, h2, h3, or_self, if_false, false_or, or_false]
    unfold generateSegmentID
    have hnum : extractSegmentNumber (trimSuffix (pathBase u.path)
        (pathExt (pathBase u.path))) = [] := by
      unfold extractSegmentNumber
      split
      · rfl
      · rw [hds]; exact hz
    rw [hnum]
    simp

/-- Claim C1, witness: both amended branches at concrete URLs
(`segment00042.ts` keeps its zeros; `chunk.ts` with sequence 7, index 3
falls back to `"7_3"`). -/
theorem claim_C1_witness :
    ExtractSegmentID (str "https://x/segment00042.ts") 5 9
      = some (str "00042")
    ∧ ExtractSegmentID (str "https://h/p/chunk.ts") 7 3
      = some (str "7_3") := by
  constructor
  · exact (claim_C1_amended (str "https://x/segment00042.ts") 5 9
      ⟨str "https", str "x", str "/segment00042.ts", []⟩ (str "00042")
      (by decide) (by decide)).1 (by decide) (by decide)
  · have h := (claim_C1_amended (str "https://h/p/chunk.ts") 7 3
      ⟨str "https", str "h", str "/p/chunk.ts", []⟩ []
      (by decide) (by decide)).2 rfl (by decide) (by decide) (by decide)
    rw [h]; decide

/-! ## Claim C3 — output directory fallback

The fallback to the host name fires when `path.Base` of the URL path is
`""`, `"."` or `"/"`.  Go `path.Base` strips trailing slashes first, so
`https://cdn.example.com/live/` has basename `live` and does NOT fall back:
it yields `live_hls_segments`.  The fallback itself works as claimed, e.g.
for `https://cdn.example.com/`. -/

/-- Claim C3, counterexample: the claimed example URL (trailing slash)
yields `live_hls_segments`, not `cdn_example_com_hls_segments`. -/
theorem claim_C3_counterexample :
    DeriveOutputDir (str "https://cdn.example.com/live/")
      = some (str "live_hls_segments")
    ∧ some (str "live_hls_segments")
      ≠ some (str "cdn_example_com_hls_segments") := by
  constructor
  · decide
  · decide

/-- Claim C3 (amended): when the basename of the playlist URL's path is
absent (`path.Base` yields `""`, `"."` or `"/"`, i.e. the path is empty or
all slashes), `DeriveOutputDir` falls back to the host with dots replaced
by underscores, suffixed `_hls_segments`.  A URL like
`https://cdn.example.com/live/` has basename `live` (trailing slashes are
stripped before the basename is taken) and yields `live_hls_segments`. -/
theorem claim_C3_amended :
    ∀ (hlsURL : Str) (u : GoURL),
      parseURL hlsURL = some u →
      (pathBase u.path = [] ∨ pathBase u.path = ['.'] ∨
        pathBase u.path = ['/']) →
      DeriveOutputDir hlsURL
        = some (replaceDotsHost u.host ++ str "_hls_segments") := by
  intro hlsURL u hp hb
  unfold DeriveOutputDir
  rw [hp]
  rcases hb with h | h | h <;> simp [h]

/-- Claim C3, witness: `https://cdn.example.com/` (path `/`, basename
`/`) falls back to `cdn_example_com_hls_segments`. -/
theorem claim_C3_witness :
    DeriveOutputDir (str "https://cdn.example.com/")
      = some (str "cdn_example_com_hls_segments") := by
  have h := claim_C3_amended (str "https://cdn.example.com/")
    ⟨str "https", str "cdn.example.com", str "/", []⟩ (by decide)
    (by decide)
  rw [h]; decide

/-! ## Claim C4 — existing destination file

In the code the `os.Stat` existence check runs only AFTER `http.Get` has
succeeded with status 200: a network transfer is started for the attempt
even when the destination file already exists; what the check skips is
creating and writing the file. -/

/-- Claim C4, counterexample: with the destination already on disk (and
the server answering 200), the attempt still issues an HTTP GET, contrary
to the claim that no GET is issued. -/
theorem claim_C4_counterexample :
    (⟨some 200, true, true, true⟩ : FMWorld).fileExists = true
    ∧ FMEvent.httpGet (str "https://x/s1.ts")
        ∈ (downloadSingleFile ⟨some 200, true, true, true⟩
            (str "https://x/s1.ts") (str "d/s1.ts")).2 := by
  constructor
  · rfl
  · decide

/-- Claim C4 (amended): a task whose destination file exists is treated as
successful without creating or writing the file — but only after an HTTP
GET has been issued and returned status 200; the existence check follows
the network transfer rather than preventing it. -/
theorem claim_C4_amended :
    ∀ (w : FMWorld) (u f : Str),
      w.fileExists = true → w.getStatus = some 200 →
      (downloadSingleFile w u f).1 = true
      ∧ FMEvent.createFile f ∉ (downloadSingleFile w u f).2
      ∧ FMEvent.copyBody f ∉ (downloadSingleFile w u f).2
      ∧ FMEvent.httpGet u ∈ (downloadSingleFile w u f).2 := by
  intro w u f he hg
  unfold downloadSingleFile
  rw [hg, he]
  simp

/-- Claim C4, witness: the amended statement at a concrete world and
task. -/
theorem claim_C4_witness :
    (downloadSingleFile ⟨some 200, true, false, false⟩ (str "https://x/a.ts")
        (str "d/a.ts")).1 = true
    ∧ FMEvent.createFile (str "d/a.ts")
        ∉ (downloadSingleFile ⟨some 200, true, false, false⟩
            (str "https://x/a.ts") (str "d/a.ts")).2
    ∧ FMEvent.copyBody (str "d/a.ts")
        ∉ (downloadSingleFile ⟨some 200, true, false, false⟩
            (str "https://x/a.ts") (str "d/a.ts")).2
    ∧ FMEvent.httpGet (str "https://x/a.ts")
        ∈ (downloadSingleFile ⟨some 200, true, false, false⟩
            (str "https://x/a.ts") (str "d/a.ts")).2 :=
  claim_C4_amended ⟨some 200, true, false, false⟩ (str "https://x/a.ts")
    (str "d/a.ts") rfl rfl

/-! ## Claim C5 — retry budget and linear backoff

`downloadFileWithRetry` hardcodes `time.Second` as backoff base; the only
constructor `New` fixes `RetryDelayBase = time.Second`, so the observable
delays equal `(i+1) * RetryDelayBase` of the constructed config. -/

lemma retryAux_attempts_le (o : Nat → Bool) (mc : Nat) :
    ∀ (rem i : Nat), (retryAux o mc i rem).2.1 ≤ rem := by
  intro rem
  induction rem with
  | zero => intro i; simp [retryAux]
  | succ r ih =>
    intro i
    unfold retryAux
    by_cases h : o i
    · simp [h]
    · simp only [h, if_false, Bool.false_eq_true]
      have := ih (i + 1)
      omega

lemma retryAux_delay_val (o : Nat → Bool) (mc : Nat) :
    ∀ (rem i : Nat), i + rem = mc →
      ∀ (j : Nat) (t : Int), (retryAux o mc i rem).2.2[j]? = some t →
        t = (Int.ofNat (i + j) + 1) * goSecond := by
  intro rem
  induction rem with
  | zero => intro i _ j t ht; simp [retryAux] at ht
  | succ r ih =>
    intro i hinv j t ht
    unfold retryAux at ht
    by_cases h : o i
    · simp [h] at ht
    · simp only [h, if_false, Bool.false_eq_true] at ht
      by_cases hc : i < mc - 1
      · rw [if_pos hc] at ht
        cases j with
        | zero =>
          simp only [List.singleton_append, List.getElem?_cons_zero] at ht
          exact (Option.some.inj ht).symm
        | succ k =>
          simp only [List.singleton_append, List.getElem?_cons_succ] at ht
          have h2 := ih (i + 1) (by omega) k t ht
          rw [h2, show i + 1 + k = i + (k + 1) from by omega]
      · rw [if_neg hc] at ht
        have hr : r = 0 := by omega
        subst hr
        simp [retryAux] at ht

lemma retryAux_delay_present (o : Nat → Bool) (mc : Nat) :
    ∀ (rem i : Nat), i + rem = mc →
      ∀ j : Nat, j + 1 < rem → (∀ k, k ≤ j → o (i + k) = false) →
        (retryAux o mc i rem).2.2[j]?
          = some ((Int.ofNat (i + j) + 1) * goSecond) := by
  intro rem
  induction rem with
  | zero => intro i _ j hj; omega
  | succ r ih =>
    intro i hinv j hj hk
    have h0 : o i = false := by
      have := hk 0 (Nat.zero_le j)
      simpa using this
    unfold retryAux
    simp only [h0, if_false, Bool.false_eq_true]
    have hc : i < mc - 1 := by omega
    rw [if_pos hc]
    cases j with
    | zero => simp
    | succ k =>
      simp only [List.singleton_append, List.getElem?_cons_succ]
      have hres := ih (i + 1) (by omega) k (by omega)
        (fun k' hk' => by
          have := hk (k' + 1) (by omega)
          rwa [show i + (k' + 1) = i + 1 + k' by omega] at this)
      rw [hres, show i + 1 + k = i + (k + 1) from by omega]

/-- Claim C5: at most `R` attempts are made; every inserted delay after
failed attempt `i` equals `(i+1) * RetryDelayBase` of the constructed
configuration, and such a delay is indeed inserted after each failed
non-final attempt. -/
theorem claim_C5 :
    ∀ (outcome : Nat → Bool) (r : Nat),
      (downloadFileWithRetry outcome r).2.1 ≤ r
      ∧ (∀ j t, (downloadFileWithRetry outcome r).2.2[j]? = some t →
          t = (Int.ofNat j + 1) * newConfig.RetryDelayBase)
      ∧ (∀ i, i + 1 < r → (∀ k, k ≤ i → outcome k = false) →
          (downloadFileWithRetry outcome r).2.2[i]?
            = some ((Int.ofNat i + 1) * newConfig.RetryDelayBase)) := by
  intro outcome r
  refine ⟨retryAux_attempts_le outcome r r 0, ?_, ?_⟩
  · intro j t ht
    have h2 := retryAux_delay_val outcome r r 0 (by omega) j t ht
    rw [h2, show (0 : Nat) + j = j from by omega]
    rfl
  · intro i hi hk
    have h2 := retryAux_delay_present outcome r r 0 (by omega) i hi
      (fun k hk' => by rw [Nat.zero_add]; exact hk k hk')
    rw [show (0 : Nat) + i = i from by omega] at h2
    exact h2

/-- Claim C5, witness: a task failing every attempt with budget 3 inserts
the delay `1 * RetryDelayBase` after its first failed attempt. -/
theorem claim_C5_witness :
    (downloadFileWithRetry (fun _ => false) 3).2.2[0]?
      = some ((Int.ofNat 0 + 1) * newConfig.RetryDelayBase) :=
  (claim_C5 (fun _ => false) 3).2.2 0 (by omega) (fun _ _ => rfl)

/-! ## Claim C6 — playlist classification

The claim's "both markers ⇒ `Parse` succeeds" overlooks the scanner
error path: `bufio.Scanner` fails with `ErrTooLong` on any line of
64 KiB or more, `extractURLsFromContent` returns that error, and `Parse`
propagates it — even for a document carrying both markers.  The
classification parts of the claim are as stated. -/

lemma splitOnChar_no_sep {sep : Char} :
    ∀ {s : Str}, sep ∉ s → splitOnChar sep s = [s] := by
  intro s
  induction s with
  | nil => intro _; rfl
  | cons c rest ih =>
    intro h
    have hc : ¬(c = sep) := fun hh => h (hh ▸ List.mem_cons_self c rest)
    have hrest : sep ∉ rest := fun hh => h (List.mem_cons_of_mem _ hh)
    simp [splitOnChar, ih hrest, hc]

lemma Parse_media_ok (content baseStr : Str) (b : GoURL)
    (hm : containsStr content (str "#EXT-X-STREAM-INF") = true)
    (hmed : containsStr content (str "#EXTINF") = true)
    (hb : parseURL baseStr = some b)
    (hscan : scanLinesOk content = true) :
    Parse content baseStr
      = .ok { URLs := scanURLs content b, IsMaster := false,
              MediaSequence := extractMediaSequence content } := by
  unfold Parse
  rw [hm, hmed, hb]
  unfold extractURLsFromContent
  rw [hscan]
  simp

lemma Parse_scan_failed (content baseStr : Str) (b : GoURL)
    (hm : containsStr content (str "#EXT-X-STREAM-INF") = true)
    (hmed : containsStr content (str "#EXTINF") = true)
    (hb : parseURL baseStr = some b)
    (hscan : scanLinesOk content = false) :
    Parse content baseStr = .error .scanFailed := by
  unfold Parse
  rw [hm, hmed, hb]
  unfold extractURLsFromContent
  rw [hscan]
  simp

/-- Claim C6, counterexample: a document made of both markers followed by
a 64 KiB run of `a` on the same (single, overlong) line carries both
markers, yet `Parse` fails with the scan error instead of succeeding. -/
theorem claim_C6_counterexample :
    containsStr (str "#EXT-X-STREAM-INF:BANDWIDTH=1" ++ str "#EXTINF:2.0,"
        ++ List.replicate 65536 'a') (str "#EXT-X-STREAM-INF") = true
    ∧ containsStr (str "#EXT-X-STREAM-INF:BANDWIDTH=1" ++ str "#EXTINF:2.0,"
        ++ List.replicate 65536 'a') (str "#EXTINF") = true
    ∧ Parse (str "#EXT-X-STREAM-INF:BANDWIDTH=1" ++ str "#EXTINF:2.0,"
        ++ List.replicate 65536 'a') (str "https://h/p.m3u8")
      = .error .scanFailed := by
  have hm : containsStr (str "#EXT-X-STREAM-INF:BANDWIDTH=1"
      ++ str "#EXTINF:2.0," ++ List.replicate 65536 'a')
      (str "#EXT-X-STREAM-INF") = true := by decide
  have hmed : containsStr (str "#EXT-X-STREAM-INF:BANDWIDTH=1"
      ++ str "#EXTINF:2.0," ++ List.replicate 65536 'a')
      (str "#EXTINF") = true := by decide
  have hnosep : '\n' ∉ (str "#EXT-X-STREAM-INF:BANDWIDTH=1"
      ++ str "#EXTINF:2.0," ++ List.replicate 65536 'a') := by
    intro hmem
    rcases List.mem_append.1 hmem with h1 | h2
    · rcases List.mem_append.1 h1 with h3 | h4
      · exact absurd h3 (by decide)
      · exact absurd h4 (by decide)
    · exact absurd (List.eq_of_mem_replicate h2) (by decide)
  have hscan : scanLinesOk (str "#EXT-X-STREAM-INF:BANDWIDTH=1"
      ++ str "#EXTINF:2.0," ++ List.replicate 65536 'a') = false := by
    unfold scanLinesOk
    rw [splitOnChar_no_sep hnosep]
    simp only [List.all_cons, List.all_nil, Bool.and_true,
      decide_eq_false_iff_not, not_lt]
    rw [List.length_append, List.length_append, List.length_replicate,
      show (str "#EXT-X-STREAM-INF:BANDWIDTH=1").length = 29 from by decide,
      show (str "#EXTINF:2.0,").length = 12 from by decide]
    norm_num [maxScanTokenSize]
  exact ⟨hm, hmed,
    Parse_scan_failed _ _ ⟨str "https", str "h", str "/p.m3u8", []⟩
      hm hmed (by decide) hscan⟩

/-- Claim C6 (amended): a document with both markers parses as media
(`IsMaster = false`, success) provided the base URL parses AND every line
fits the scanner's 64 KiB token limit; a both-marker document with an
overlong line instead fails with the scan error.  A document with neither
marker is rejected as unrecognized (that check precedes scanning); and a
parsed playlist is never both master and not-master. -/
theorem claim_C6_amended :
    ∀ (content baseStr : Str),
      (∀ b : GoURL,
        containsStr content (str "#EXT-X-STREAM-INF") = true →
        containsStr content (str "#EXTINF") = true →
        parseURL baseStr = some b →
        scanLinesOk content = true →
        Parse content baseStr
          = .ok { URLs := scanURLs content b,
                  IsMaster := false,
                  MediaSequence := extractMediaSequence content })
      ∧ (∀ b : GoURL,
        containsStr content (str "#EXT-X-STREAM-INF") = true →
        containsStr content (str "#EXTINF") = true →
        parseURL baseStr = some b →
        scanLinesOk content = false →
        Parse content baseStr = .error .scanFailed)
      ∧ (containsStr content (str "#EXT-X-STREAM-INF") = false →
         containsStr content (str "#EXTINF") = false →
         Parse content baseStr = .error .unrecognized)
      ∧ (∀ pl : Playlist, Parse content baseStr = .ok pl →
          ¬(pl.IsMaster = true ∧ pl.IsMaster = false)) := by
  intro content baseStr
  refine ⟨?_, ?_, ?_, ?_⟩
  · intro b hm hmed hb hscanok
    exact Parse_media_ok content baseStr b hm hmed hb hscanok
  · intro b hm hmed hb hscanbad
    exact Parse_scan_failed content baseStr b hm hmed hb hscanbad
  · intro hm hmed
    unfold Parse
    rw [hm, hmed]
    simp
  · intro pl _ hcl
    rw [hcl.1] at hcl
    exact Bool.noConfusion hcl.2

/-- Claim C6, witness: both marker situations at concrete short
documents (whose lines all fit the scanner limit). -/
theorem claim_C6_witness :
    Parse (str "#EXT-X-STREAM-INF:BANDWIDTH=1\n#EXTINF:2.0,\nseg1.ts")
        (str "https://h/p.m3u8")
      = .ok { URLs := scanURLs
                (str "#EXT-X-STREAM-INF:BANDWIDTH=1\n#EXTINF:2.0,\nseg1.ts")
                ⟨str "https", str "h", str "/p.m3u8", []⟩,
              IsMaster := false,
              MediaSequence := extractMediaSequence
                (str "#EXT-X-STREAM-INF:BANDWIDTH=1\n#EXTINF:2.0,\nseg1.ts") }
    ∧ Parse (str "no markers here") (str "https://h/p.m3u8")
      = .error .unrecognized :=
  ⟨(claim_C6_amended
      (str "#EXT-X-STREAM-INF:BANDWIDTH=1\n#EXTINF:2.0,\nseg1.ts")
      (str "https://h/p.m3u8")).1
      ⟨str "https", str "h", str "/p.m3u8", []⟩
      (by decide) (by decide) (by decide) (by decide),
    (claim_C6_amended (str "no markers here") (str "https://h/p.m3u8")).2.2.1
      (by decide) (by decide)⟩

/-! ## Claim C7 — query-string inheritance -/

/-- Claim C7: after reference resolution, a missing query inherits the
base's query and a present query is kept (the base's query is not
appended); concretely, `seg1.ts` against `https://h/p/pl.m3u8?tok=1`
yields `https://h/p/seg1.ts?tok=1` and `seg1.ts?x=2` yields
`https://h/p/seg1.ts?x=2`. -/
theorem claim_C7 :
    (∀ (line : Str) (base u : GoURL),
      parseURL line = some u →
      ((resolveReference base u).query = [] → base.query ≠ [] →
        parseRelativeURL line base
          = some (urlToString
              { resolveReference base u with query := base.query }))
      ∧ ((resolveReference base u).query ≠ [] →
        parseRelativeURL line base
          = some (urlToString (resolveReference base u))))
    ∧ Option.bind (parseURL (str "https://h/p/pl.m3u8?tok=1"))
        (parseRelativeURL (str "seg1.ts"))
        = some (str "https://h/p/seg1.ts?tok=1")
    ∧ Option.bind (parseURL (str "https://h/p/pl.m3u8?tok=1"))
        (parseRelativeURL (str "seg1.ts?x=2"))
        = some (str "https://h/p/seg1.ts?x=2") := by
  refine ⟨?_, by decide, by decide⟩
  intro line base u hp
  constructor
  · intro hq hbq
    unfold parseRelativeURL
    rw [hp]
    simp only [if_pos (And.intro hq hbq)]
  · intro hq
    unfold parseRelativeURL
    rw [hp]
    have hcond : ¬((resolveReference base u).query = [] ∧
        base.query ≠ []) := fun hand => hq hand.1
    simp only [hcond, if_false]

/-- Claim C7, witness: the general inheritance statement applied at the
concrete line `seg1.ts` and base `https://h/p/pl.m3u8?tok=1`. -/
theorem claim_C7_witness :
    parseRelativeURL (str "seg1.ts")
        ⟨str "https", str "h", str "/p/pl.m3u8", str "tok=1"⟩
      = some (urlToString
          { resolveReference
              ⟨str "https", str "h", str "/p/pl.m3u8", str "tok=1"⟩
              ⟨[], [], str "seg1.ts", []⟩ with
            query := str "tok=1" }) :=
  (claim_C7.1 (str "seg1.ts")
    ⟨str "https", str "h", str "/p/pl.m3u8", str "tok=1"⟩
    ⟨[], [], str "seg1.ts", []⟩ (by decide)).1 (by decide) (by decide)

/-! ## Claim C8 — bounded concurrency and the batch join point -/

lemma dlReach_inv (c n : Nat) :
    ∀ s : DLState, DLReach c n s →
      s.holding ≤ c ∧ s.pending + s.holding + s.done = n
        ∧ (s.returned = true → s.done = n) := by
  intro s h
  induction h with
  | init => simp [dlInit]
  | step _ hstep ih =>
    cases hstep with
    | dispatch p hh d hc =>
      dsimp only at ih ⊢
      exact ⟨by omega, by omega, fun hf => Bool.noConfusion hf⟩
    | finish p hh d =>
      dsimp only at ih ⊢
      exact ⟨by omega, by omega, fun hf => Bool.noConfusion hf⟩
    | ret d =>
      dsimp only at ih ⊢
      exact ⟨by omega, by omega, fun _ => by omega⟩

/-- Claim C8: in every reachable state of `ConcurrentDownload` with
concurrency limit `c` on a batch of `n` tasks, at most `c` workers hold a
transfer slot, and the call has returned only if all `n` tasks are done. -/
theorem claim_C8 :
    ∀ (c n : Nat) (s : DLState), DLReach c n s →
      s.holding ≤ c ∧ (s.returned = true → s.done = n) :=
  fun c n s h => ⟨(dlReach_inv c n s h).1, (dlReach_inv c n s h).2.2⟩

/-- Claim C8, witness: a batch of 50 tasks with limit 8 after one
dispatch step. -/
theorem claim_C8_witness :
    (⟨49, 1, 0, false⟩ : DLState).holding ≤ 8
    ∧ ((⟨49, 1, 0, false⟩ : DLState).returned = true →
        (⟨49, 1, 0, false⟩ : DLState).done = 50) :=
  claim_C8 8 50 ⟨49, 1, 0, false⟩
    (DLReach.step DLReach.init (DLStep.dispatch 49 0 0 (by omega)))

/-! ## Ledger lemmas for `filterNewSegments` (claims C2, C10) -/

lemma filterLoop_nil (seq : Int) (i : Nat) (d : List Str) :
    filterLoop seq [] i d = ([], d) := rfl

lemma filterLoop_eq_cons (seq : Int) (u0 : Str) (rest : List Str)
    (i : Nat) (d : List Str) :
    filterLoop seq (u0 :: rest) i d
      = match procID u0 seq (Int.ofNat i) with
        | none => filterLoop seq rest (i + 1) d
        | some sid0 =>
          if sid0 ∈ d then filterLoop seq rest (i + 1) d
          else ((i, u0) :: (filterLoop seq rest (i + 1) (sid0 :: d)).1,
            (filterLoop seq rest (i + 1) (sid0 :: d)).2) := rfl

lemma filterLoop_eq_none {seq : Int} {u0 : Str} {i : Nat}
    {rest d : List Str} (h : procID u0 seq (Int.ofNat i) = none) :
    filterLoop seq (u0 :: rest) i d = filterLoop seq rest (i + 1) d := by
  rw [filterLoop_eq_cons, h]

lemma filterLoop_eq_dup {seq : Int} {u0 sid0 : Str} {i : Nat}
    {rest d : List Str} (h : procID u0 seq (Int.ofNat i) = some sid0)
    (hd : sid0 ∈ d) :
    filterLoop seq (u0 :: rest) i d = filterLoop seq rest (i + 1) d := by
  rw [filterLoop_eq_cons, h]
  simp only [if_pos hd]

lemma filterLoop_eq_sel {seq : Int} {u0 sid0 : Str} {i : Nat}
    {rest d : List Str} (h : procID u0 seq (Int.ofNat i) = some sid0)
    (hd : sid0 ∉ d) :
    filterLoop seq (u0 :: rest) i d
      = ((i, u0) :: (filterLoop seq rest (i + 1) (sid0 :: d)).1,
          (filterLoop seq rest (i + 1) (sid0 :: d)).2) := by
  rw [filterLoop_eq_cons, h]
  simp only [if_neg hd]

lemma filterLoop_mono (seq : Int) :
    ∀ (urls : List Str) (i : Nat) (d : List Str) (x : Str),
      x ∈ d → x ∈ (filterLoop seq urls i d).2 := by
  intro urls
  induction urls with
  | nil => intro i d x hx; exact hx
  | cons url rest ih =>
    intro i d x hx
    cases hpid : procID url seq (Int.ofNat i) with
    | none =>
      rw [filterLoop_eq_none hpid]
      exact ih (i + 1) d x hx
    | some sid0 =>
      by_cases hd : sid0 ∈ d
      · rw [filterLoop_eq_dup hpid hd]
        exact ih (i + 1) d x hx
      · rw [filterLoop_eq_sel hpid hd]
        exact ih (i + 1) (sid0 :: d) x (List.mem_cons_of_mem _ hx)

lemma filterLoop_marks (seq : Int) :
    ∀ (urls : List Str) (i : Nat) (d : List Str) (off : Nat)
      (url sid : Str),
      urls[off]? = some url →
      procID url seq (Int.ofNat (i + off)) = some sid →
      sid ∈ (filterLoop seq urls i d).2 := by
  intro urls
  induction urls with
  | nil => intro i d off url sid h; simp at h
  | cons u0 rest ih =>
    intro i d off url sid hget hpid2
    cases off with
    | zero =>
      simp only [List.getElem?_cons_zero, Option.some.injEq] at hget
      subst hget
      rw [Nat.add_zero] at hpid2
      by_cases hd : sid ∈ d
      · rw [filterLoop_eq_dup hpid2 hd]
        exact filterLoop_mono seq rest (i + 1) d sid hd
      · rw [filterLoop_eq_sel hpid2 hd]
        exact filterLoop_mono seq rest (i + 1) (sid :: d) sid
          (List.mem_cons_self _ _)
    | succ o =>
      simp only [List.getElem?_cons_succ] at hget
      have hpid3 : procID url seq (Int.ofNat (i + 1 + o)) = some sid := by
        rwa [show i + 1 + o = i + (o + 1) from by omega]
      cases hpid : procID u0 seq (Int.ofNat i) with
      | none =>
        rw [filterLoop_eq_none hpid]
        exact ih (i + 1) d o url sid hget hpid3
      | some sid0 =>
        by_cases hd : sid0 ∈ d
        · rw [filterLoop_eq_dup hpid hd]
          exact ih (i + 1) d o url sid hget hpid3
        · rw [filterLoop_eq_sel hpid hd]
          exact ih (i + 1) (sid0 :: d) o url sid hget hpid3

lemma filterLoop_none_new (seq : Int) :
    ∀ (urls : List Str) (i : Nat) (d : List Str),
      (∀ off url sid, urls[off]? = some url →
        procID url seq (Int.ofNat (i + off)) = some sid → sid ∈ d) →
      filterLoop seq urls i d = ([], d) := by
  intro urls
  induction urls with
  | nil => intro i d _; rfl
  | cons u0 rest ih =>
    intro i d hall
    have hshift : ∀ off url sid, rest[off]? = some url →
        procID url seq (Int.ofNat (i + 1 + off)) = some sid → sid ∈ d := by
      intro off url sid hg hp
      exact hall (off + 1) url sid (by simpa using hg)
        (by rwa [show i + (off + 1) = i + 1 + off from by omega])
    cases hpid : procID u0 seq (Int.ofNat i) with
    | none =>
      rw [filterLoop_eq_none hpid]
      exact ih (i + 1) d hshift
    | some sid0 =>
      have hd : sid0 ∈ d := hall 0 u0 sid0 (by simp)
        (by rwa [Nat.add_zero])
      rw [filterLoop_eq_dup hpid hd]
      exact ih (i + 1) d hshift

lemma filterLoop_sel_idx (seq : Int) :
    ∀ (urls : List Str) (i : Nat) (d : List Str) (j : Nat) (u : Str),
      (j, u) ∈ (filterLoop seq urls i d).1 →
      ∃ off, j = i + off ∧ urls[off]? = some u := by
  intro urls
  induction urls with
  | nil => intro i d j u h; simp [filterLoop_nil] at h
  | cons u0 rest ih =>
    intro i d j u hmem
    cases hpid : procID u0 seq (Int.ofNat i) with
    | none =>
      rw [filterLoop_eq_none hpid] at hmem
      obtain ⟨off, h1, h2⟩ := ih (i + 1) d j u hmem
      exact ⟨off + 1, by omega, by simpa using h2⟩
    | some sid0 =>
      by_cases hd : sid0 ∈ d
      · rw [filterLoop_eq_dup hpid hd] at hmem
        obtain ⟨off, h1, h2⟩ := ih (i + 1) d j u hmem
        exact ⟨off + 1, by omega, by simpa using h2⟩
      · rw [filterLoop_eq_sel hpid hd] at hmem
        rcases List.mem_cons.1 hmem with hhead | htail
        · injection hhead with h1 h2
          exact ⟨0, by omega, by simp [h2]⟩
        · obtain ⟨off, h1, h2⟩ := ih (i + 1) (sid0 :: d) j u htail
          exact ⟨off + 1, by omega, by simpa using h2⟩

lemma filterLoop_no_resel (seq : Int) :
    ∀ (urls : List Str) (i : Nat) (d : List Str) (sid : Str), sid ∈ d →
      ∀ (j : Nat) (u : Str), (j, u) ∈ (filterLoop seq urls i d).1 →
      procID u seq (Int.ofNat j) ≠ some sid := by
  intro urls
  induction urls with
  | nil => intro i d sid hsid j u h; simp [filterLoop_nil] at h
  | cons u0 rest ih =>
    intro i d sid hsid j u hmem
    cases hpid : procID u0 seq (Int.ofNat i) with
    | none =>
      rw [filterLoop_eq_none hpid] at hmem
      exact ih (i + 1) d sid hsid j u hmem
    | some sid0 =>
      by_cases hd : sid0 ∈ d
      · rw [filterLoop_eq_dup hpid hd] at hmem
        exact ih (i + 1) d sid hsid j u hmem
      · rw [filterLoop_eq_sel hpid hd] at hmem
        rcases List.mem_cons.1 hmem with hhead | htail
        · injection hhead with h1 h2
          subst h1; subst h2
          rw [hpid]
          intro hcontra
          have h3 := Option.some.inj hcontra
          subst h3
          exact hd hsid
        · exact ih (i + 1) (sid0 :: d) sid (List.mem_cons_of_mem _ hsid)
            j u htail

lemma filterLoop_sel_marked (seq : Int) :
    ∀ (urls : List Str) (i : Nat) (d : List Str) (j : Nat) (u : Str),
      (j, u) ∈ (filterLoop seq urls i d).1 →
      ∃ sid, procID u seq (Int.ofNat j) = some sid ∧
        sid ∈ (filterLoop seq urls i d).2 := by
  intro urls
  induction urls with
  | nil => intro i d j u h; simp [filterLoop_nil] at h
  | cons u0 rest ih =>
    intro i d j u hmem
    cases hpid : procID u0 seq (Int.ofNat i) with
    | none =>
      rw [filterLoop_eq_none hpid] at hmem ⊢
      exact ih (i + 1) d j u hmem
    | some sid0 =>
      by_cases hd : sid0 ∈ d
      · rw [filterLoop_eq_dup hpid hd] at hmem ⊢
        exact ih (i + 1) d j u hmem
      · rw [filterLoop_eq_sel hpid hd] at hmem ⊢
        rcases List.mem_cons.1 hmem with hhead | htail
        · injection hhead with h1 h2
          subst h1; subst h2
          exact ⟨sid0, hpid, filterLoop_mono seq rest (j + 1) (sid0 :: d)
            sid0 (List.mem_cons_self _ _)⟩
        · exact ih (i + 1) (sid0 :: d) j u htail

lemma filterLoop_ids_nodup (seq : Int) :
    ∀ (urls : List Str) (i : Nat) (d : List Str),
      ((filterLoop seq urls i d).1.map
        (fun p => procID p.2 seq (Int.ofNat p.1))).Nodup := by
  intro urls
  induction urls with
  | nil => intro i d; simp [filterLoop_nil]
  | cons u0 rest ih =>
    intro i d
    cases hpid : procID u0 seq (Int.ofNat i) with
    | none =>
      rw [filterLoop_eq_none hpid]
      exact ih (i + 1) d
    | some sid0 =>
      by_cases hd : sid0 ∈ d
      · rw [filterLoop_eq_dup hpid hd]
        exact ih (i + 1) d
      · rw [filterLoop_eq_sel hpid hd]
        have hgoal : (((i, u0) ::
            (filterLoop seq rest (i + 1) (sid0 :: d)).1).map
            (fun p => procID p.2 seq (Int.ofNat p.1))).Nodup := by
          rw [List.map_cons, List.nodup_cons]
          constructor
          · intro hmm
            obtain ⟨p, hp, hfp⟩ := List.mem_map.1 hmm
            have hfp2 : procID p.2 seq (Int.ofNat p.1)
                = procID u0 seq (Int.ofNat i) := hfp
            rw [hpid] at hfp2
            exact filterLoop_no_resel seq rest (i + 1) (sid0 :: d) sid0
              (List.mem_cons_self _ _) p.1 p.2 hp hfp2
          · exact ih (i + 1) (sid0 :: d)
        exact hgoal

lemma filterLoop_first_wins (seq : Int) :
    ∀ (urls : List Str) (i : Nat) (d : List Str) (a b : Nat)
      (ua ub sid : Str),
      a < b → urls[a]? = some ua → urls[b]? = some ub →
      procID ua seq (Int.ofNat (i + a)) = some sid →
      procID ub seq (Int.ofNat (i + b)) = some sid →
      ∀ u : Str, (i + b, u) ∉ (filterLoop seq urls i d).1 := by
  intro urls
  induction urls with
  | nil => intro i d a b ua ub sid _ hga; simp at hga
  | cons u0 rest ih =>
    intro i d a b ua ub sid hab hga hgb hpa hpb u hmem
    cases b with
    | zero => omega
    | succ b' =>
      have hgb' : rest[b']? = some ub := by simpa using hgb
      cases a with
      | zero =>
        have hua : u0 = ua := by simpa using hga
        subst hua
        rw [Nat.add_zero] at hpa
        by_cases hd : sid ∈ d
        · rw [filterLoop_eq_dup hpa hd] at hmem
          refine (filterLoop_no_resel seq rest (i + 1) d sid hd
            (i + (b' + 1)) u hmem) ?_
          obtain ⟨off, hoff, hgoff⟩ :=
            filterLoop_sel_idx seq rest (i + 1) d _ u hmem
          have hoffb : off = b' := by omega
          subst hoffb
          rw [hgb'] at hgoff
          rw [← Option.some.inj hgoff]
          exact hpb
        · rw [filterLoop_eq_sel hpa hd] at hmem
          rcases List.mem_cons.1 hmem with hhead | htail
          · injection hhead with h1 _
            omega
          · refine (filterLoop_no_resel seq rest (i + 1) (sid :: d) sid
              (List.mem_cons_self _ _) (i + (b' + 1)) u htail) ?_
            obtain ⟨off, hoff, hgoff⟩ :=
              filterLoop_sel_idx seq rest (i + 1) (sid :: d) _ u htail
            have hoffb : off = b' := by omega
            subst hoffb
            rw [hgb'] at hgoff
            rw [← Option.some.inj hgoff]
            exact hpb
      | succ a' =>
        have hga' : rest[a']? = some ua := by simpa using hga
        have hpa' : procID ua seq (Int.ofNat (i + 1 + a')) = some sid := by
          rwa [show i + 1 + a' = i + (a' + 1) from by omega]
        have hpb' : procID ub seq (Int.ofNat (i + 1 + b')) = some sid := by
          rwa [show i + 1 + b' = i + (b' + 1) from by omega]
        have hib : i + (b' + 1) = i + 1 + b' := by omega
        cases hpid : procID u0 seq (Int.ofNat i) with
        | none =>
          rw [filterLoop_eq_none hpid] at hmem
          exact ih (i + 1) d a' b' ua ub sid (by omega) hga' hgb'
            hpa' hpb' u (hib ▸ hmem)
        | some sid0 =>
          by_cases hd : sid0 ∈ d
          · rw [filterLoop_eq_dup hpid hd] at hmem
            exact ih (i + 1) d a' b' ua ub sid (by omega) hga' hgb'
              hpa' hpb' u (hib ▸ hmem)
          · rw [filterLoop_eq_sel hpid hd] at hmem
            rcases List.mem_cons.1 hmem with hhead | htail
            · injection hhead with h1 _
              omega
            · exact ih (i + 1) (sid0 :: d) a' b' ua ub sid (by omega)
                hga' hgb' hpa' hpb' u (hib ▸ htail)

/-! ## Claim C2 — filtering is idempotent across polls -/

/-- Claim C2: running `filterNewSegments` a second time on the state left
by a first run, with the same URL list and sequence number, yields no new
candidates. -/
theorem claim_C2 :
    ∀ (downloaded tsURLs : List Str) (seq : Int),
      (filterNewSegments (filterNewSegments downloaded tsURLs seq).2
        tsURLs seq).1 = [] := by
  intro d urls seq
  by_cases hnil : urls = []
  · subst hnil; simp [filterNewSegments]
  · have h2 : (filterNewSegments d urls seq).2
        = (filterLoop seq urls 0 d).2 := by
      simp [filterNewSegments, hnil]
    have h3 := filterLoop_none_new seq urls 0 (filterLoop seq urls 0 d).2
      (fun off url sid hg hp =>
        filterLoop_marks seq urls 0 d off url sid hg hp)
    simp [filterNewSegments, hnil, h2, h3]

/-! ## Claim C9 — a successful identity extraction is never empty -/

/-- Claim C9: whenever `ExtractSegmentID` succeeds its identity is
non-empty (digit-run branch by the guard, fallback by the `_` separator),
so the empty-identity invalid-name skip in `processSegmentURL` is
unreachable. -/
theorem claim_C9 :
    (∀ (urlStr : Str) (seq idx : Int) (sid : Str),
      ExtractSegmentID urlStr seq idx = some sid → sid ≠ [])
    ∧ (∀ (urlStr : Str) (seq idx : Int),
      processSegmentURL urlStr seq idx ≠ .error .invalidName) := by
  constructor
  · intro url seq idx sid h
    exact extractSegmentID_ne_nil h
  · intro url seq idx h
    unfold processSegmentURL at h
    split at h
    · simp at h
    · rename_i sid he
      rw [if_neg (extractSegmentID_ne_nil he)] at h
      simp at h

/-- Claim C9, witness: both parts at the concrete URL
`https://x/a1.ts`. -/
theorem claim_C9_witness :
    str "1" ≠ []
    ∧ processSegmentURL (str "https://x/a1.ts") 0 0
        ≠ Except.error SegSkip.invalidName :=
  ⟨claim_C9.1 (str "https://x/a1.ts") 0 0 (str "1") (by decide),
    claim_C9.2 (str "https://x/a1.ts") 0 0⟩

/-! ## Claim C10 — per-call uniqueness of selected identities -/

/-- Claim C10: within one `filterNewSegments` call the selected entries
have pairwise-distinct identities; every selected entry's identity is in
the final ledger; when two positions derive the same identity only the
earlier can be selected; and the Go return value is the second projection
of the indexed selection. -/
theorem claim_C10 :
    ∀ (downloaded tsURLs : List Str) (seq : Int),
      ((filterLoop seq tsURLs 0 downloaded).1.map
        (fun p => procID p.2 seq (Int.ofNat p.1))).Nodup
      ∧ (∀ (j : Nat) (u sid : Str),
          (j, u) ∈ (filterLoop seq tsURLs 0 downloaded).1 →
          procID u seq (Int.ofNat j) = some sid →
          sid ∈ (filterLoop seq tsURLs 0 downloaded).2)
      ∧ (∀ (a b : Nat) (ua ub sid : Str), a < b →
          tsURLs[a]? = some ua → tsURLs[b]? = some ub →
          procID ua seq (Int.ofNat a) = some sid →
          procID ub seq (Int.ofNat b) = some sid →
          ∀ u : Str, (b, u) ∉ (filterLoop seq tsURLs 0 downloaded).1)
      ∧ (tsURLs ≠ [] →
          filterNewSegments downloaded tsURLs seq
            = ((filterLoop seq tsURLs 0 downloaded).1.map Prod.snd,
                (filterLoop seq tsURLs 0 downloaded).2)) := by
  intro d urls seq
  refine ⟨filterLoop_ids_nodup seq urls 0 d, ?_, ?_, ?_⟩
  · intro j u sid hmem hpid
    obtain ⟨sid2, hpid2, hin⟩ := filterLoop_sel_marked seq urls 0 d j u hmem
    rw [hpid] at hpid2
    rw [← Option.some.inj hpid2] at hin
    exact hin
  · intro a b ua ub sid hab hga hgb hpa hpb u
    have h := filterLoop_first_wins seq urls 0 d a b ua ub sid hab hga hgb
      (by rwa [Nat.zero_add]) (by rwa [Nat.zero_add]) u
    rwa [Nat.zero_add] at h
  · intro hnil
    simp [filterNewSegments, hnil]

/-- Claim C10, witness: two URLs deriving the same identity `"7"`; the
later position is not selected. -/
theorem claim_C10_witness :
    (1, str "https://y/b7.ts") ∉
      (filterLoop 0 [str "https://x/a7.ts", str "https://y/b7.ts"]
        0 []).1 :=
  (claim_C10 [] [str "https://x/a7.ts", str "https://y/b7.ts"] 0).2.2.1
    0 1 (str "https://x/a7.ts") (str "https://y/b7.ts") (str "7")
    (by omega) (by decide) (by decide) (by decide) (by decide)
    (str "https://y/b7.ts")

end HLS

